import Mathlib

/-!
Shallow embedding of the NumberInput numeric value engine
(src/apps/mantine.dev/src/pages/core/anchor.mdx, lines 62-931).

JavaScript numbers are modelled as exact rationals (every finite JS float is a
decimal rational); `NaN` is modelled by `Option.none` in the parsing functions.
JS bigints are modelled as `Int`, strings as `String`.
-/

namespace Mantine

/-- The internal stored value of the component: `string | number | bigint`
(`InternalNumberInputValue` in the source). -/
inductive InternalValue where
  | str (s : String)
  | num (q : ℚ)
  | big (i : ℤ)
deriving DecidableEq, Repr

/-- The constant `Number.MAX_SAFE_INTEGER` as a rational. -/
def maxSafe : ℚ := 9007199254740991

/-- Result of one stepper invocation: the stored value afterwards, whether
`setValue` was invoked (a change notification), and whether `onMinReached` /
`onMaxReached` were invoked during the call. -/
structure StepResult where
  value : InternalValue
  changed : Bool
  minReached : Bool
  maxReached : Bool
deriving DecidableEq, Repr

/-- The `clampBehavior` configuration value. -/
inductive ClampBehavior where
  | strict
  | blur
  | none
deriving DecidableEq, Repr

/-- Digit list to natural number. -/
def digitsToNat (ds : List Char) : ℕ :=
  ds.foldl (fun acc c => acc * 10 + (c.toNat - '0'.toNat)) 0

/-- JS whitespace characters relevant to numeric parsing. -/
def jsWhitespace (c : Char) : Bool :=
  c = ' ' ∨ c = '\t' ∨ c = '\n' ∨ c = '\r'

/-- Parse an unsigned decimal mantissa (`digits`, `digits.digits`, `.digits`,
`digits.`) returning its value and the unconsumed rest. -/
def parseUnsignedDec (cs : List Char) : Option (ℚ × List Char) :=
  let intDs := cs.takeWhile Char.isDigit
  let rest1 := cs.dropWhile Char.isDigit
  match rest1 with
  | '.' :: rest2 =>
    let fracDs := rest2.takeWhile Char.isDigit
    let rest3 := rest2.dropWhile Char.isDigit
    if intDs.isEmpty && fracDs.isEmpty then Option.none
    else some ((digitsToNat (intDs ++ fracDs) : ℚ) / 10 ^ fracDs.length, rest3)
  | _ => if intDs.isEmpty then Option.none else some ((digitsToNat intDs : ℚ), rest1)

/-- Parse an optional exponent part (`e`/`E`, optional sign, digits). When the
exponent is malformed it is not consumed (JS backtracks: `"1e"` parses as `1`). -/
def parseExponent (cs : List Char) : Int × List Char :=
  match cs with
  | c :: rest =>
    if c = 'e' ∨ c = 'E' then
      match rest with
      | '+' :: r2 =>
        let ds := r2.takeWhile Char.isDigit
        if ds.isEmpty then (0, cs) else ((digitsToNat ds : Int), r2.dropWhile Char.isDigit)
      | '-' :: r2 =>
        let ds := r2.takeWhile Char.isDigit
        if ds.isEmpty then (0, cs) else (-(digitsToNat ds : Int), r2.dropWhile Char.isDigit)
      | r2 =>
        let ds := r2.takeWhile Char.isDigit
        if ds.isEmpty then (0, cs) else ((digitsToNat ds : Int), r2.dropWhile Char.isDigit)
    else (0, cs)
  | [] => (0, [])

/-- Parse an optional sign. -/
def parseSign (cs : List Char) : ℚ × List Char :=
  match cs with
  | '-' :: r => (-1, r)
  | '+' :: r => (1, r)
  | r => (1, r)

/-- Parse a signed decimal literal with optional exponent, returning its value
and the unconsumed rest. -/
def parseDecLiteral (cs : List Char) : Option (ℚ × List Char) :=
  let (sgn, cs1) := parseSign cs
  match parseUnsignedDec cs1 with
  | Option.none => Option.none
  | some (m, cs2) =>
    let (e, cs3) := parseExponent cs2
    some (sgn * m * (10 : ℚ) ^ e, cs3)

/-- Models the JS `Number(string)` conversion on decimal literals: the whole
trimmed string must be a literal; `NaN` is `Option.none`; the empty string is
`0`. Hex/octal/binary literals and `Infinity` are not modelled (they never
arise from the component's sanitized text). -/
def jsNumber (s : String) : Option ℚ :=
  let cs := ((s.data.dropWhile jsWhitespace).reverse.dropWhile jsWhitespace).reverse
  if cs.isEmpty then some 0
  else match parseDecLiteral cs with
    | some (q, []) => some q
    | _ => Option.none

/-- Models the JS `parseFloat(string)`: parses the longest numeric prefix after
leading whitespace; `NaN` is `Option.none`. -/
def parseFloat (s : String) : Option ℚ :=
  match parseDecLiteral (s.data.dropWhile jsWhitespace) with
  | some (q, _) => some q
  | Option.none => Option.none

/-- Regex `^(0\.0*|-0(\.0*)?)$` from the source (`leadingDecimalZeroPattern`). -/
def leadingDecimalZeroPattern (s : String) : Bool :=
  match s.data with
  | '0' :: '.' :: rest => rest.all (· == '0')
  | '-' :: '0' :: rest =>
    match rest with
    | [] => true
    | '.' :: r2 => r2.all (· == '0')
    | _ => false
  | _ => false

/-- Regex `^-?0\d+(\.\d+)?\.?$` from the source (`leadingZerosPattern`). -/
def leadingZerosPattern (s : String) : Bool :=
  let cs := match s.data with
    | '-' :: r => r
    | r => r
  match cs with
  | '0' :: rest =>
    let d1 := rest.takeWhile Char.isDigit
    let r1 := rest.dropWhile Char.isDigit
    if d1.isEmpty then false
    else match r1 with
      | [] => true
      | ['.'] => true
      | '.' :: r2 =>
        let d2 := r2.takeWhile Char.isDigit
        let r3 := r2.dropWhile Char.isDigit
        if d2.isEmpty then false else r3 = [] || r3 = ['.']
      | _ => false
  | _ => false

/-- Regex `/\.\d*0$/` from the source (`trailingZerosPattern`). -/
def trailingZerosPattern (s : String) : Bool :=
  match s.data.reverse with
  | '0' :: rest => (rest.dropWhile Char.isDigit).head? = some '.'
  | _ => false

/-- Regex `^-?\d+\.$` from the source (`trailingDecimalSeparatorPattern`). -/
def trailingDecimalSeparatorPattern (s : String) : Bool :=
  let cs := match s.data with
    | '-' :: r => r
    | r => r
  match cs.reverse with
  | '.' :: rest => !rest.isEmpty && rest.all Char.isDigit
  | _ => false

/-- Source function `isNumberString`, on the stored value. -/
def isNumberString (v : InternalValue) : Bool :=
  match v with
  | .str s => !(s == "") && (jsNumber s).isSome
  | _ => false

/-- Source function `canStep`: whether a fixed-precision value is steppable.
A bigint never reaches this function in number mode; JS would fall through the
`typeof` checks and return `false`. -/
def canStep (v : InternalValue) : Bool :=
  match v with
  | .num q => decide (q < maxSafe)
  | .str s =>
    s == "" || (isNumberString (.str s) && decide (((jsNumber s).getD 0) < maxSafe))
  | .big _ => false

/-- Source function `isValidBigIntString`. -/
def isValidBigIntString (s : String) (allowNegative : Bool) : Bool :=
  if s == "" then false
  else if s == "-" then false
  else if !allowNegative && s.startsWith "-" then false
  else match s.data with
    | '-' :: r => !r.isEmpty && r.all Char.isDigit
    | r => !r.isEmpty && r.all Char.isDigit

/-- Source function `canStepBigInt`. A plain number in big-integer mode would
throw inside `isValidBigIntString` in JS; it is modelled as not steppable (such
a state is never reached in big-integer mode). -/
def canStepBigInt (v : InternalValue) (allowNegative : Bool) : Bool :=
  match v with
  | .big _ => true
  | .str s => s == "" || isValidBigIntString s allowNegative
  | .num _ => false

/-- Source function `parseBigIntFromString`: regex `^-?\d+$`, then `BigInt`. -/
def parseBigIntFromString (s : String) : Option ℤ :=
  match s.data with
  | '-' :: r =>
    if !r.isEmpty && r.all Char.isDigit then some (-(digitsToNat r : ℤ)) else Option.none
  | r =>
    if !r.isEmpty && r.all Char.isDigit then some ((digitsToNat r : ℤ)) else Option.none

/-- Source function `clampBigInt`: the `min` bound is checked first. -/
def clampBigInt (value : ℤ) (lo hi : Option ℤ) : ℤ :=
  match lo with
  | some l =>
    if value < l then l
    else match hi with
      | some h => if h < value then h else value
      | Option.none => value
  | Option.none =>
    match hi with
    | some h => if h < value then h else value
    | Option.none => value

/-- Remove the first `'.'` of a string, as `value.replace('.', '')` does for a
single-dot numeric string (JS `String.replace` with a string pattern replaces
only the first occurrence). -/
def replaceFirstDot : List Char → List Char
  | [] => []
  | '.' :: r => r
  | c :: r => c :: replaceFirstDot r

/-- Source function `getTotalDigits`: length of the text with its first `'.'`
removed. -/
def getTotalDigits (s : String) : ℕ :=
  (replaceFirstDot s.data).length

/-- Source function `isValidNumber`: an `undefined` float value is invalid
(`Number(undefined)` is `NaN`). -/
def isValidNumber (floatValue : Option ℚ) (value : String) : Bool :=
  match floatValue with
  | some q => decide (q < maxSafe) && decide (getTotalDigits value < 14) && !(value == "")
  | Option.none => false

/-- Source function `isInRange`. -/
def isInRange (value lo hi : Option ℚ) : Bool :=
  match value with
  | Option.none => true
  | some v =>
    (match lo with
     | Option.none => true
     | some l => decide (l ≤ v)) &&
    (match hi with
     | Option.none => true
     | some h => decide (v ≤ h))

/-- Modelled from the spec: `clamp` from the hooks package (the repository's
`@mantine/hooks`, not under `src/`) — constrain a value to lie within the given
bounds, leaving it unchanged if already in range; an absent bound is not
enforced. -/
def clamp (value : ℚ) (lo hi : Option ℚ) : ℚ :=
  match lo, hi with
  | Option.none, Option.none => value
  | some l, Option.none => max value l
  | Option.none, some h => min value h
  | some l, some h => min (max value l) h

/-- Optional exponent followed by end of string: models matching
`(?:[eE]([+-]?\d+))?$` of the `getDecimalPlaces` regex at a position. -/
def expEnd (cs : List Char) : Option Int :=
  match cs with
  | [] => some 0
  | c :: rest =>
    if c = 'e' ∨ c = 'E' then
      match rest with
      | '+' :: r2 =>
        if !r2.isEmpty && r2.all Char.isDigit then some ((digitsToNat r2 : Int)) else Option.none
      | '-' :: r2 =>
        if !r2.isEmpty && r2.all Char.isDigit then some (-(digitsToNat r2 : Int)) else Option.none
      | r2 =>
        if !r2.isEmpty && r2.all Char.isDigit then some ((digitsToNat r2 : Int)) else Option.none
    else Option.none

/-- Try to match `(?:\.(\d+))?(?:[eE]([+-]?\d+))?$` at the current position,
returning the fraction-digit count and the exponent value. -/
def matchDpAt (cs : List Char) : Option (ℕ × Int) :=
  match cs with
  | '.' :: rest =>
    let ds := rest.takeWhile Char.isDigit
    if ds.isEmpty then Option.none
    else match expEnd (rest.dropWhile Char.isDigit) with
      | some e => some (ds.length, e)
      | Option.none => Option.none
  | _ =>
    match expEnd cs with
    | some e => some (0, e)
    | Option.none => Option.none

/-- Scan for the leftmost position where the `getDecimalPlaces` regex matches
(it always matches at the end of the string). -/
def scanDp : List Char → ℕ × Int
  | [] => (0, 0)
  | c :: rest =>
    match matchDpAt (c :: rest) with
    | some r => r
    | Option.none => scanDp rest

/-- Source function `getDecimalPlaces` applied to a string:
`Math.max(0, (match[1] length) - (+match[2]))`. -/
def getDecimalPlacesStr (s : String) : ℕ :=
  (((scanDp s.data).1 : Int) - (scanDp s.data).2).toNat

/-- Source function `getDecimalPlaces` applied to a JS number: the number of
fraction digits of its decimal string rendering — the least `k` with
`q * 10 ^ k` integral (the regex's exponent arithmetic makes the two agree
also for exponent-notation renderings). The search is bounded by 400, beyond
every value reachable in the component. -/
def getDecimalPlacesQ (q : ℚ) : ℕ :=
  (((List.range 400).filter (fun k => (q * 10 ^ k).den == 1)).headD 0)

/-- Source call `getDecimalPlaces(_value)` on the stored value (string or number; a bigint
renders without fraction digits). -/
def getDecimalPlaces (v : InternalValue) : ℕ :=
  match v with
  | .str s => getDecimalPlacesStr s
  | .num q => getDecimalPlacesQ q
  | .big _ => 0

/-- Models `Math.round`: round half toward positive infinity. -/
def jsRound (q : ℚ) : ℤ := ⌊q + 1 / 2⌋

/-- Models `parseFloat(q.toFixed(p))`: round to `p` fraction digits (half away
from zero, as `toFixed` does) and read the result back. Exact whenever
`q * 10 ^ p` is an integer, which holds for every value the steppers format. -/
def toFixedParse (q : ℚ) (p : ℕ) : ℚ :=
  if 0 ≤ q then ((⌊q * 10 ^ p + 1 / 2⌋ : ℤ) : ℚ) / 10 ^ p
  else -(((⌊-(q * 10 ^ p) + 1 / 2⌋ : ℤ) : ℚ) / 10 ^ p)

/-- The regex replace `^0+(?=\d)` with `''`: strip leading zeros that are
followed by another digit. -/
def stripLeadingZeros (s : String) : String :=
  let zs := s.data.takeWhile (· == '0')
  let rest := s.data.dropWhile (· == '0')
  match rest.head? with
  | some c => if c.isDigit then String.mk rest else String.mk (zs.take 1 ++ rest)
  | Option.none => String.mk (zs.take 1)

/-- Decimal string rendering of a JS number (used by `clamped.toString()` in
`clampAndSanitizeInput`); exact for decimal rationals within the search bound. -/
def numToString (q : ℚ) : String :=
  let p := getDecimalPlacesQ q
  let n := (q * 10 ^ p).num
  let m := n.natAbs
  let ip := m / 10 ^ p
  let fp := m % 10 ^ p
  let sgn := if n < 0 then "-" else ""
  if p = 0 then sgn ++ toString ip
  else sgn ++ toString ip ++ "." ++
    String.mk (List.replicate (p - (toString fp).length) '0') ++ toString fp

/-- The `react-number-format` change payload: raw text and resolved float. -/
structure Payload where
  value : String
  floatValue : Option ℚ
deriving DecidableEq, Repr

/-- The fixed-precision branch of `handleValueChange` (source lines 519-536):
accept the parsed float when all checks pass, otherwise keep the raw text. -/
def handleValueChangeNumber (allowLeadingZeros : Bool) (p : Payload) : InternalValue :=
  if isValidNumber p.floatValue p.value
      && !(leadingDecimalZeroPattern p.value)
      && !(if allowLeadingZeros then leadingZerosPattern p.value else false)
      && !(trailingZerosPattern p.value)
      && !(trailingDecimalSeparatorPattern p.value)
  then match p.floatValue with
    | some q => .num q
    | Option.none => .str p.value
  else .str p.value

/-- Source function `parseBigIntOrString` (lines 502-512). -/
def parseBigIntOrString (allowNegative allowLeadingZeros : Bool) (s : String) : InternalValue :=
  if !(isValidBigIntString s allowNegative) || (allowLeadingZeros && leadingZerosPattern s)
  then .str s
  else match parseBigIntFromString s with
    | some i => .big i
    | Option.none => .str s

/-- Fixed-precision configuration relevant to stepping and blur
(the resolved `minNumber`, `maxNumber`, `stepNumber`, `startValueNumber`,
`allowNegativeResolved`, `allowLeadingZerosResolved` and policy flags). -/
structure NumberCfg where
  min : Option ℚ
  max : Option ℚ
  step : ℚ
  startValue : ℚ
  allowNegative : Bool
  allowLeadingZeros : Bool
  clampBehavior : ClampBehavior
  trimLeadingZeroesOnBlur : Bool
deriving DecidableEq, Repr

/-- Big-integer configuration (`minBigInt`, `maxBigInt`, `stepBigInt`,
`startValueBigInt` and policy flags). -/
structure BigIntCfg where
  min : Option ℤ
  max : Option ℤ
  step : ℤ
  startValue : ℤ
  allowNegative : Bool
  allowLeadingZeros : Bool
  clampBehavior : ClampBehavior
  trimLeadingZeroesOnBlur : Bool
deriving DecidableEq, Repr

/-- A guard-rejected step: value untouched, no notifications. -/
def noStep (v : InternalValue) : StepResult := ⟨v, false, false, false⟩

/-- Models `Number(_value)` in the stepper arithmetic (only reached when the value is
a number or a numeric string). -/
def toNumberValue (v : InternalValue) : ℚ :=
  match v with
  | .num q => q
  | .str s => if s == "" then 0 else (jsNumber s).getD 0
  | .big i => (i : ℚ)

/-- Whether the stored value is a plain number (`typeof _value === 'number'`). -/
def isNumValue : InternalValue → Bool
  | .num _ => true
  | _ => false

/-- The fixed-precision `increment` handler (source lines 595-625). -/
def incrementNum (cfg : NumberCfg) (v : InternalValue) : StepResult :=
  if !canStep v then noStep v
  else
    let maxPrecision := Nat.max (getDecimalPlaces v) (getDecimalPlacesQ cfg.step)
    let factor : ℚ := 10 ^ maxPrecision
    let rp : ℚ × Bool :=
      if !isNumberString v && !isNumValue v then
        (clamp cfg.startValue cfg.min cfg.max, false)
      else
        match cfg.max with
        | some m =>
          let incremented :=
            ((jsRound (toNumberValue v * factor) + jsRound (cfg.step * factor) : ℤ) : ℚ) / factor
          if m < incremented then (m, true) else (incremented, false)
        | Option.none =>
          (((jsRound (toNumberValue v * factor) + jsRound (cfg.step * factor) : ℤ) : ℚ) / factor,
            false)
    ⟨.num (toFixedParse rp.1 maxPrecision), true, false, rp.2⟩

/-- The effective minimum of the fixed-precision `decrement` handler:
`min`, else `0` when negatives are disallowed, else `Number.MIN_SAFE_INTEGER`. -/
def effectiveMinNumber (cfg : NumberCfg) : ℚ :=
  match cfg.min with
  | some m => m
  | Option.none => if !cfg.allowNegative then 0 else -maxSafe

/-- The fixed-precision `decrement` handler (source lines 670-700). -/
def decrementNum (cfg : NumberCfg) (v : InternalValue) : StepResult :=
  if !canStep v then noStep v
  else
    let minValue := effectiveMinNumber cfg
    let maxPrecision := Nat.max (getDecimalPlaces v) (getDecimalPlacesQ cfg.step)
    let factor : ℚ := 10 ^ maxPrecision
    let rp : ℚ × Bool :=
      if !isNumberString v && !isNumValue v then
        (clamp cfg.startValue (some minValue) cfg.max, false)
      else
        let decremented :=
          ((jsRound (toNumberValue v * factor) - jsRound (cfg.step * factor) : ℤ) : ℚ) / factor
        if decremented < minValue then (minValue, true) else (decremented, false)
    ⟨.num (toFixedParse rp.1 maxPrecision), true, rp.2, false⟩

/-- The effective minimum of the big-integer `decrement` handler. -/
def effectiveMinBig (cfg : BigIntCfg) : Option ℤ :=
  match cfg.min with
  | some m => some m
  | Option.none => if !cfg.allowNegative then some 0 else Option.none

/-- Clamp a candidate against an optional upper bound, reporting whether the
bound was exceeded (`onMaxReached`). -/
def bigStepClampMax (candidate : ℤ) (hi : Option ℤ) : ℤ × Bool :=
  match hi with
  | some h => if h < candidate then (h, true) else (candidate, false)
  | Option.none => (candidate, false)

/-- Clamp a candidate against an optional lower bound, reporting whether the
bound was undershot (`onMinReached`). -/
def bigStepClampMin (candidate : ℤ) (lo : Option ℤ) : ℤ × Bool :=
  match lo with
  | some l => if candidate < l then (l, true) else (candidate, false)
  | Option.none => (candidate, false)

/-- The big-integer `increment` handler (source lines 553-592). A plain number
is rejected by the guard (see `canStepBigInt`). -/
def incrementBig (cfg : BigIntCfg) (v : InternalValue) : StepResult :=
  if !canStepBigInt v cfg.allowNegative then noStep v
  else
    match v with
    | .big i =>
      let r := bigStepClampMax (i + cfg.step) cfg.max
      ⟨.big r.1, true, false, r.2⟩
    | .str s =>
      if s == "" then ⟨.big (clampBigInt cfg.startValue cfg.min cfg.max), true, false, false⟩
      else match parseBigIntFromString s with
        | Option.none => noStep (.str s)
        | some parsed =>
          let r := bigStepClampMax (parsed + cfg.step) cfg.max
          ⟨.big r.1, true, false, r.2⟩
    | .num q => noStep (.num q)

/-- The big-integer `decrement` handler (source lines 627-667): its empty-value
fallback clamps against the effective minimum. -/
def decrementBig (cfg : BigIntCfg) (v : InternalValue) : StepResult :=
  if !canStepBigInt v cfg.allowNegative then noStep v
  else
    let minValue := effectiveMinBig cfg
    match v with
    | .big i =>
      let r := bigStepClampMin (i - cfg.step) minValue
      ⟨.big r.1, true, r.2, false⟩
    | .str s =>
      if s == "" then ⟨.big (clampBigInt cfg.startValue minValue cfg.max), true, false, false⟩
      else match parseBigIntFromString s with
        | Option.none => noStep (.str s)
        | some parsed =>
          let r := bigStepClampMin (parsed - cfg.step) minValue
          ⟨.big r.1, true, r.2, false⟩
    | .num q => noStep (.num q)

/-- Source function `clampAndSanitizeInput` (lines 352-375); arguments follow
the source order `(sanitizedValue, max, min)`. -/
def clampAndSanitizeInput (sanitizedValue : String) (hi lo : Option ℚ) : InternalValue :=
  let hasTrailingDecimalSeparator := trailingDecimalSeparatorPattern sanitizedValue
  let replaced := stripLeadingZeros sanitizedValue
  match parseFloat replaced with
  | Option.none => .str replaced
  | some parsedValue =>
    if maxSafe < parsedValue then
      match hi with
      | some m => .num m
      | Option.none => .str replaced
    else
      let clamped := clamp parsedValue lo hi
      if hasTrailingDecimalSeparator then .str (stripLeadingZeros (numToString clamped) ++ ".")
      else .num clamped

/-- Source function `clampAndSanitizeBigIntInput` (lines 377-394). -/
def clampAndSanitizeBigIntInput (sanitizedValue : String) (lo hi : Option ℤ)
    (clampBehavior : ClampBehavior) : InternalValue :=
  if sanitizedValue == "" || sanitizedValue == "-" then .str sanitizedValue
  else match parseBigIntFromString sanitizedValue with
    | Option.none => .str sanitizedValue
    | some parsed =>
      match clampBehavior with
      | .blur => .big (clampBigInt parsed lo hi)
      | _ => .big parsed

/-- The fixed-precision branch of `handleBlur` (source lines 738-772); the
boolean records whether `setValue` was invoked (the value changed). -/
def handleBlurNumber (cfg : NumberCfg) (v : InternalValue) : InternalValue × Bool :=
  let s1 : InternalValue := match v with
    | .num q => if cfg.clampBehavior = .blur then .num (clamp q cfg.min cfg.max) else v
    | _ => v
  let s2 : InternalValue := match s1 with
    | .str s =>
      if cfg.trimLeadingZeroesOnBlur && decide (getDecimalPlacesStr s < 15)
      then clampAndSanitizeInput s cfg.max cfg.min
      else s1
    | _ => s1
  (s2, decide (v ≠ s2))

/-- The big-integer branch of `handleBlur` (source lines 741-752). -/
def handleBlurBigInt (cfg : BigIntCfg) (v : InternalValue) : InternalValue × Bool :=
  let s1 : InternalValue := match v with
    | .big i => if cfg.clampBehavior = .blur then .big (clampBigInt i cfg.min cfg.max) else v
    | _ => v
  let s2 : InternalValue := match s1 with
    | .str s =>
      if cfg.trimLeadingZeroesOnBlur then clampAndSanitizeBigIntInput s cfg.min cfg.max cfg.clampBehavior
      else s1
    | _ => s1
  (s2, decide (v ≠ s2))

/-- The `isAllowed` entry gate passed to the text field (source lines 896-924).
`userAllowed` is the result of the user validator (`true` when absent). -/
def numberInputIsAllowed (userAllowed : Bool) (clampBehavior : ClampBehavior)
    (isBigIntMode : Bool) (minN maxN : Option ℚ) (minB maxB : Option ℤ) (p : Payload) : Bool :=
  if !userAllowed then false
  else if !(clampBehavior = ClampBehavior.strict) then true
  else if !isBigIntMode then isInRange p.floatValue minN maxN
  else if p.value == "" || p.value == "-" then true
  else match parseBigIntFromString p.value with
    | Option.none => true
    | some parsed =>
      (match minB with
       | Option.none => true
       | some l => decide (l ≤ parsed)) &&
      (match maxB with
       | Option.none => true
       | some h => decide (parsed ≤ h))

/-- Modelled from the spec: the hosting text field (`react-number-format`, not
under `src/`) invokes the value-change handler only when the `isAllowed` gate
accepts the candidate text; a rejected keystroke leaves the stored value
unchanged (spec sections 4.5 and 7). -/
def strictKeystrokeNumber (userAllowed : Bool) (clampBehavior : ClampBehavior)
    (allowLeadingZeros : Bool) (minN maxN : Option ℚ) (v : InternalValue) (p : Payload) :
    InternalValue :=
  if numberInputIsAllowed userAllowed clampBehavior false minN maxN Option.none Option.none p
  then handleValueChangeNumber allowLeadingZeros p
  else v

/-- The cached value mode (`valueModeRef`). -/
inductive NumberInputMode where
  | number
  | bigint
deriving DecidableEq, Repr

/-- The per-render mode-latch update (source lines 472-476): a controlled
bigint switches the cache to big-integer mode, a controlled plain number to
number mode, anything else (absent or string) leaves the cache untouched. -/
def updateMode (m : NumberInputMode) (controlled : Option InternalValue) : NumberInputMode :=
  match controlled with
  | some (.big _) => .bigint
  | some (.num _) => .number
  | _ => m

/-- Whether a controlled value is a plain number. -/
def isNumOpt : Option InternalValue → Bool
  | some (.num _) => true
  | _ => false

/-- The operations that can mutate the stored value while the component is in
big-integer mode. -/
inductive BigIntOp where
  | sanitize (s : String)
  | increment
  | decrement
  | blur

/-- Apply one big-integer-mode operation to the stored value. -/
def applyBigIntOp (cfg : BigIntCfg) (v : InternalValue) (op : BigIntOp) : InternalValue :=
  match op with
  | .sanitize s => parseBigIntOrString cfg.allowNegative cfg.allowLeadingZeros s
  | .increment => (incrementBig cfg v).value
  | .decrement => (decrementBig cfg v).value
  | .blur => (handleBlurBigInt cfg v).1

/-- A rational is decimal (within the rendering bound) when some power of ten
clears its denominator; every finite JS number satisfies this. -/
def DecimalQ (q : ℚ) : Prop := ∃ k, k < 400 ∧ (q * 10 ^ k).den = 1

theorem den_one_exists {q : ℚ} (h : q.den = 1) : ∃ z : ℤ, q = (z : ℚ) :=
  ⟨q.num, ((Rat.den_eq_one_iff q).mp h).symm⟩

theorem den_one_pow_mono {q : ℚ} {k m : ℕ} (hk : (q * 10 ^ k).den = 1) (hkm : k ≤ m) :
    (q * 10 ^ m).den = 1 := by
  obtain ⟨z, hz⟩ := den_one_exists hk
  have hsplit : q * 10 ^ m = (q * 10 ^ k) * 10 ^ (m - k) := by
    rw [mul_assoc, ← pow_add, Nat.add_sub_cancel' hkm]
  have hcast : q * 10 ^ m = ((z * 10 ^ (m - k) : ℤ) : ℚ) := by
    rw [hsplit, hz]; push_cast; ring
  rw [hcast]; exact Rat.den_intCast _

theorem floor_int_add_half (z : ℤ) : ⌊(z : ℚ) + 1 / 2⌋ = z := by
  rw [Int.floor_int_add]
  norm_num

theorem jsRound_intCast (z : ℤ) : jsRound (z : ℚ) = z := by
  unfold jsRound; exact floor_int_add_half z

theorem toFixedParse_eq {q : ℚ} {p : ℕ} (h : (q * 10 ^ p).den = 1) : toFixedParse q p = q := by
  obtain ⟨z, hz⟩ := den_one_exists h
  have h10 : (0 : ℚ) < 10 ^ p := by positivity
  unfold toFixedParse
  by_cases hq : 0 ≤ q
  · rw [if_pos hq, hz, floor_int_add_half]
    rw [eq_comm, eq_div_iff (ne_of_gt h10)]
    exact hz
  · rw [if_neg hq]
    have hneg : -(q * 10 ^ p) = ((-z : ℤ) : ℚ) := by rw [hz]; push_cast; ring
    rw [hneg, floor_int_add_half]
    push_cast
    rw [neg_div, neg_neg, eq_comm, eq_div_iff (ne_of_gt h10)]
    exact hz

theorem scaled_addQ {q s : ℚ} {p : ℕ} (hq : (q * 10 ^ p).den = 1) (hs : (s * 10 ^ p).den = 1) :
    ((jsRound (q * 10 ^ p) + jsRound (s * 10 ^ p) : ℤ) : ℚ) / 10 ^ p = q + s := by
  obtain ⟨zq, hzq⟩ := den_one_exists hq
  obtain ⟨zs, hzs⟩ := den_one_exists hs
  have h10 : (10 : ℚ) ^ p ≠ 0 := by positivity
  rw [hzq, hzs, jsRound_intCast, jsRound_intCast]
  push_cast
  rw [← hzq, ← hzs]
  field_simp
  ring

theorem scaled_subQ {q s : ℚ} {p : ℕ} (hq : (q * 10 ^ p).den = 1) (hs : (s * 10 ^ p).den = 1) :
    ((jsRound (q * 10 ^ p) - jsRound (s * 10 ^ p) : ℤ) : ℚ) / 10 ^ p = q - s := by
  obtain ⟨zq, hzq⟩ := den_one_exists hq
  obtain ⟨zs, hzs⟩ := den_one_exists hs
  have h10 : (10 : ℚ) ^ p ≠ 0 := by positivity
  rw [hzq, hzs, jsRound_intCast, jsRound_intCast]
  push_cast
  rw [← hzq, ← hzs]
  field_simp
  ring

theorem getDecimalPlacesQ_den {q : ℚ} (h : DecimalQ q) :
    (q * 10 ^ getDecimalPlacesQ q).den = 1 := by
  obtain ⟨k, hk, hden⟩ := h
  have hmem : k ∈ (List.range 400).filter (fun k => (q * 10 ^ k).den == 1) := by
    rw [List.mem_filter, List.mem_range]
    exact ⟨hk, by simp [hden]⟩
  unfold getDecimalPlacesQ
  cases hl : (List.range 400).filter (fun k => (q * 10 ^ k).den == 1) with
  | nil => rw [hl] at hmem; cases hmem
  | cons a t =>
    have ha : a ∈ (List.range 400).filter (fun k => (q * 10 ^ k).den == 1) := by
      rw [hl]; exact List.mem_cons_self a t
    rw [List.mem_filter] at ha
    simpa using ha.2

theorem decimalQ_den_sub {a b : ℚ} {p : ℕ} (ha : (a * 10 ^ p).den = 1)
    (hb : (b * 10 ^ p).den = 1) : ((a - b) * 10 ^ p).den = 1 := by
  obtain ⟨za, hza⟩ := den_one_exists ha
  obtain ⟨zb, hzb⟩ := den_one_exists hb
  have : (a - b) * 10 ^ p = ((za - zb : ℤ) : ℚ) := by
    push_cast
    rw [← hza, ← hzb]; ring
  rw [this]; exact Rat.den_intCast _

theorem decimalQ_den_add {a b : ℚ} {p : ℕ} (ha : (a * 10 ^ p).den = 1)
    (hb : (b * 10 ^ p).den = 1) : ((a + b) * 10 ^ p).den = 1 := by
  obtain ⟨za, hza⟩ := den_one_exists ha
  obtain ⟨zb, hzb⟩ := den_one_exists hb
  have : (a + b) * 10 ^ p = ((za + zb : ℤ) : ℚ) := by
    push_cast
    rw [← hza, ← hzb]; ring
  rw [this]; exact Rat.den_intCast _

theorem decimalQ_add {a b : ℚ} (ha : DecimalQ a) (hb : DecimalQ b) : DecimalQ (a + b) := by
  obtain ⟨ka, hka, hda⟩ := ha
  obtain ⟨kb, hkb, hdb⟩ := hb
  exact ⟨Nat.max ka kb, Nat.max_lt.mpr ⟨hka, hkb⟩,
    decimalQ_den_add (den_one_pow_mono hda (Nat.le_max_left _ _))
      (den_one_pow_mono hdb (Nat.le_max_right _ _))⟩

theorem incrementNum_num_exact (cfg : NumberCfg) (v : ℚ) (hv : v < maxSafe)
    (hdv : DecimalQ v) (hds : DecimalQ cfg.step) :
    incrementNum cfg (.num v) =
      match cfg.max with
      | some m =>
        if m < v + cfg.step
        then ⟨.num (toFixedParse m (Nat.max (getDecimalPlacesQ v) (getDecimalPlacesQ cfg.step))),
              true, false, true⟩
        else ⟨.num (v + cfg.step), true, false, false⟩
      | Option.none => ⟨.num (v + cfg.step), true, false, false⟩ := by
  have hdv' : (v * 10 ^ Nat.max (getDecimalPlacesQ v) (getDecimalPlacesQ cfg.step)).den = 1 :=
    den_one_pow_mono (getDecimalPlacesQ_den hdv) (Nat.le_max_left _ _)
  have hds' : (cfg.step * 10 ^ Nat.max (getDecimalPlacesQ v) (getDecimalPlacesQ cfg.step)).den = 1 :=
    den_one_pow_mono (getDecimalPlacesQ_den hds) (Nat.le_max_right _ _)
  have hsum := decimalQ_den_add hdv' hds'
  have hinc := scaled_addQ hdv' hds'
  have hcs : canStep (.num v) = true := by simp [canStep, hv]
  unfold incrementNum
  rw [hcs]
  simp only [Bool.not_true, isNumberString, isNumValue, Bool.not_false,
    Bool.true_and, Bool.and_false, Bool.false_and, toNumberValue, getDecimalPlaces,
    Bool.false_eq_true, if_false]
  cases hm : cfg.max with
  | none =>
    simp only [hinc]
    rw [toFixedParse_eq hsum]
  | some m =>
    simp only [hinc]
    by_cases hlt : m < v + cfg.step
    · rw [if_pos hlt, if_pos hlt]
    · rw [if_neg hlt, if_neg hlt, toFixedParse_eq hsum]

theorem decrementNum_num_exact (cfg : NumberCfg) (v : ℚ) (hv : v < maxSafe)
    (hdv : DecimalQ v) (hds : DecimalQ cfg.step) :
    decrementNum cfg (.num v) =
      (if v - cfg.step < effectiveMinNumber cfg
       then ⟨.num (toFixedParse (effectiveMinNumber cfg)
              (Nat.max (getDecimalPlacesQ v) (getDecimalPlacesQ cfg.step))), true, true, false⟩
       else ⟨.num (v - cfg.step), true, false, false⟩) := by
  have hdv' : (v * 10 ^ Nat.max (getDecimalPlacesQ v) (getDecimalPlacesQ cfg.step)).den = 1 :=
    den_one_pow_mono (getDecimalPlacesQ_den hdv) (Nat.le_max_left _ _)
  have hds' : (cfg.step * 10 ^ Nat.max (getDecimalPlacesQ v) (getDecimalPlacesQ cfg.step)).den = 1 :=
    den_one_pow_mono (getDecimalPlacesQ_den hds) (Nat.le_max_right _ _)
  have hdiff := decimalQ_den_sub hdv' hds'
  have hdec := scaled_subQ hdv' hds'
  have hcs : canStep (.num v) = true := by simp [canStep, hv]
  unfold decrementNum
  rw [hcs]
  simp only [Bool.not_true, isNumberString, isNumValue, Bool.not_false,
    Bool.true_and, Bool.and_false, Bool.false_and, toNumberValue, getDecimalPlaces,
    Bool.false_eq_true, if_false]
  simp only [hdec]
  by_cases hlt : v - cfg.step < effectiveMinNumber cfg
  · rw [if_pos hlt, if_pos hlt]
  · rw [if_neg hlt, if_neg hlt, toFixedParse_eq hdiff]

theorem parseBigIntOrString_not_num (aN aLZ : Bool) (s : String) :
    isNumValue (parseBigIntOrString aN aLZ s) = false := by
  unfold parseBigIntOrString
  split
  · rfl
  · cases hp : parseBigIntFromString s <;> simp [hp, isNumValue]

theorem clampAndSanitizeBigIntInput_not_num (s : String) (lo hi : Option ℤ)
    (cb : ClampBehavior) : isNumValue (clampAndSanitizeBigIntInput s lo hi cb) = false := by
  unfold clampAndSanitizeBigIntInput
  split
  · rfl
  · cases hp : parseBigIntFromString s with
    | none => simp [hp, isNumValue]
    | some i => cases cb <;> simp [hp, isNumValue]

theorem incrementBig_not_num (cfg : BigIntCfg) (v : InternalValue)
    (h : isNumValue v = false) : isNumValue (incrementBig cfg v).value = false := by
  cases v with
  | num q => simp [isNumValue] at h
  | big i => simp [incrementBig, canStepBigInt, isNumValue]
  | str s =>
    unfold incrementBig
    cases hcs : canStepBigInt (.str s) cfg.allowNegative with
    | false => simp [hcs, noStep, isNumValue]
    | true =>
      by_cases hs : s = ""
      · simp [hcs, hs, isNumValue]
      · cases hp : parseBigIntFromString s with
        | none => simp [hcs, hs, hp, noStep, isNumValue]
        | some i => simp [hcs, hs, hp, isNumValue]

theorem decrementBig_not_num (cfg : BigIntCfg) (v : InternalValue)
    (h : isNumValue v = false) : isNumValue (decrementBig cfg v).value = false := by
  cases v with
  | num q => simp [isNumValue] at h
  | big i => simp [decrementBig, canStepBigInt, isNumValue]
  | str s =>
    unfold decrementBig
    cases hcs : canStepBigInt (.str s) cfg.allowNegative with
    | false => simp [hcs, noStep, isNumValue]
    | true =>
      by_cases hs : s = ""
      · simp [hcs, hs, isNumValue]
      · cases hp : parseBigIntFromString s with
        | none => simp [hcs, hs, hp, noStep, isNumValue]
        | some i => simp [hcs, hs, hp, isNumValue]

theorem handleBlurBigInt_not_num (cfg : BigIntCfg) (v : InternalValue)
    (h : isNumValue v = false) : isNumValue (handleBlurBigInt cfg v).1 = false := by
  unfold handleBlurBigInt
  cases v with
  | num q => simp [isNumValue] at h
  | big i =>
    by_cases hcb : cfg.clampBehavior = ClampBehavior.blur <;> simp [hcb, isNumValue]
  | str s =>
    by_cases ht : cfg.trimLeadingZeroesOnBlur
    · simpa [ht] using clampAndSanitizeBigIntInput_not_num s cfg.min cfg.max cfg.clampBehavior
    · simp [ht, isNumValue]

theorem applyBigIntOp_not_num (cfg : BigIntCfg) (v : InternalValue) (op : BigIntOp)
    (h : isNumValue v = false) : isNumValue (applyBigIntOp cfg v op) = false := by
  cases op with
  | sanitize s => exact parseBigIntOrString_not_num _ _ s
  | increment => exact incrementBig_not_num cfg v h
  | decrement => exact decrementBig_not_num cfg v h
  | blur => exact handleBlurBigInt_not_num cfg v h

/-- C1: once the mode latch holds big-integer mode (and no plain-number
controlled value is supplied afterwards, so the latch stays in big-integer
mode), every stored value produced by the big-integer-mode operations —
sanitize on keystroke, increment, decrement, blur normalization — is a string
(empty or partial text) or a bigint, never a plain number. -/
theorem c1_mode_latch_bigint_invariant :
    (∀ (vs : List (Option InternalValue)), (∀ x ∈ vs, isNumOpt x = false) →
      vs.foldl updateMode NumberInputMode.bigint = NumberInputMode.bigint) ∧
    (∀ (cfg : BigIntCfg) (v : InternalValue) (ops : List BigIntOp),
      isNumValue v = false →
      isNumValue (ops.foldl (applyBigIntOp cfg) v) = false) := by
  constructor
  · intro vs
    induction vs with
    | nil => intro _; rfl
    | cons a t ih =>
      intro h
      have ha := h a (List.mem_cons_self a t)
      have hm : updateMode NumberInputMode.bigint a = NumberInputMode.bigint := by
        cases a with
        | none => rfl
        | some w => cases w <;> simp [updateMode, isNumOpt] at ha ⊢
      rw [List.foldl_cons, hm]
      exact ih fun x hx => h x (List.mem_cons_of_mem _ hx)
  · intro cfg v ops h
    induction ops generalizing v with
    | nil => exact h
    | cons op t ih =>
      rw [List.foldl_cons]
      exact ih _ (applyBigIntOp_not_num cfg v op h)

/-- Witness for C1 at a concrete big-integer-mode run. -/
theorem c1_witness :
    isNumValue (List.foldl
      (applyBigIntOp ⟨some 0, Option.none, 10, 0, true, true, ClampBehavior.blur, true⟩)
      (.big 5)
      [BigIntOp.increment, BigIntOp.sanitize "12", BigIntOp.blur, BigIntOp.decrement]) = false ∧
    List.foldl updateMode NumberInputMode.bigint
      [some (.str "1"), Option.none, some (.big 2)] = NumberInputMode.bigint :=
  ⟨c1_mode_latch_bigint_invariant.2 _ _ _ (by decide),
   c1_mode_latch_bigint_invariant.1 _ (by decide)⟩

/-- C4 counterexample: with `allowLeadingZeros = false` the text `"007"`
matches the leading-zero pattern yet is accepted and resolved — it is not kept
as raw text — in both fixed-precision and big-integer modes. -/
theorem c4_counterexample :
    leadingZerosPattern "007" = true ∧
    handleValueChangeNumber false ⟨"007", some 7⟩ = .num 7 ∧
    parseBigIntOrString true false "007" = .big 7 := by decide

/-- The fixed-precision sanitizer with the leading-zeros pattern check removed,
stated from the amended claim for comparison with the
`allowLeadingZeros = false` behavior of the source sanitizer. -/
def handleValueChangeNumberNoLZ (p : Payload) : InternalValue :=
  if isValidNumber p.floatValue p.value
      && !(leadingDecimalZeroPattern p.value)
      && !(trailingZerosPattern p.value)
      && !(trailingDecimalSeparatorPattern p.value)
  then match p.floatValue with
    | some q => .num q
    | Option.none => .str p.value
  else .str p.value

/-- The big-integer sanitizer with the leading-zeros pattern check removed,
stated from the amended claim. -/
def parseBigIntOrStringNoLZ (allowNegative : Bool) (s : String) : InternalValue :=
  if !(isValidBigIntString s allowNegative) then .str s
  else match parseBigIntFromString s with
    | some i => .big i
    | Option.none => .str s

/-- C4 amended: the Text Sanitizer keeps typed text as raw text when leading
zeros are ALLOWED (`allowLeadingZeros = true`) and the text matches the
leading-zero-with-extra-digits pattern; when leading zeros are disallowed,
this pattern check never causes rejection (the sanitizer behaves exactly as if
the check were absent). This holds in both fixed-precision and big-integer
modes. -/
theorem c4_amended_leading_zeros :
    (∀ (p : Payload), leadingZerosPattern p.value = true →
      handleValueChangeNumber true p = .str p.value) ∧
    (∀ (aN : Bool) (s : String), leadingZerosPattern s = true →
      parseBigIntOrString aN true s = .str s) ∧
    (∀ (p : Payload), handleValueChangeNumber false p = handleValueChangeNumberNoLZ p) ∧
    (∀ (aN : Bool) (s : String), parseBigIntOrString aN false s = parseBigIntOrStringNoLZ aN s) := by
  refine ⟨?_, ?_, ?_, ?_⟩
  · intro p h
    unfold handleValueChangeNumber
    simp [h]
  · intro aN s h
    unfold parseBigIntOrString
    simp [h]
  · intro p
    unfold handleValueChangeNumber handleValueChangeNumberNoLZ
    simp
  · intro aN s
    unfold parseBigIntOrString parseBigIntOrStringNoLZ
    simp

/-- Witness for C4 at the concrete text `"007"`. -/
theorem c4_witness :
    handleValueChangeNumber true ⟨"007", some 7⟩ = .str "007" ∧
    parseBigIntOrString true true "007" = .str "007" :=
  ⟨c4_amended_leading_zeros.1 ⟨"007", some 7⟩ (by decide),
   c4_amended_leading_zeros.2.1 true "007" (by decide)⟩

/-- C5: a non-steppable stored value — in number mode a number at or above
`Number.MAX_SAFE_INTEGER` or a non-numeric non-empty string, in big-integer
mode a non-empty string that is not a valid integer string — makes both
`increment` and `decrement` no-ops: value unchanged, `setValue` not invoked,
and neither boundary callback fired. -/
theorem c5_non_steppable_noop :
    (∀ (cfg : NumberCfg) (q : ℚ), maxSafe ≤ q →
      incrementNum cfg (.num q) = ⟨.num q, false, false, false⟩ ∧
      decrementNum cfg (.num q) = ⟨.num q, false, false, false⟩) ∧
    (∀ (cfg : NumberCfg) (s : String), ¬(s = "") → jsNumber s = Option.none →
      incrementNum cfg (.str s) = ⟨.str s, false, false, false⟩ ∧
      decrementNum cfg (.str s) = ⟨.str s, false, false, false⟩) ∧
    (∀ (cfg : BigIntCfg) (s : String), ¬(s = "") →
      isValidBigIntString s cfg.allowNegative = false →
      incrementBig cfg (.str s) = ⟨.str s, false, false, false⟩ ∧
      decrementBig cfg (.str s) = ⟨.str s, false, false, false⟩) := by
  refine ⟨?_, ?_, ?_⟩
  · intro cfg q h
    have hcs : canStep (.num q) = false := by simp [canStep, not_lt.mpr h]
    constructor
    · unfold incrementNum; rw [hcs]; rfl
    · unfold decrementNum; rw [hcs]; rfl
  · intro cfg s hne hnan
    have hcs : canStep (.str s) = false := by
      simp [canStep, isNumberString, hne, hnan]
    constructor
    · unfold incrementNum; rw [hcs]; rfl
    · unfold decrementNum; rw [hcs]; rfl
  · intro cfg s hne hinv
    have hcs : canStepBigInt (.str s) cfg.allowNegative = false := by
      simp [canStepBigInt, hne, hinv]
    constructor
    · unfold incrementBig; rw [hcs]; rfl
    · unfold decrementBig; rw [hcs]; rfl

/-- Witness for C5 at concrete non-steppable values. -/
theorem c5_witness :
    incrementNum ⟨Option.none, Option.none, 1, 0, true, true, ClampBehavior.blur, true⟩
      (.num maxSafe) = ⟨.num maxSafe, false, false, false⟩ ∧
    incrementNum ⟨Option.none, Option.none, 1, 0, true, true, ClampBehavior.blur, true⟩
      (.str "abc") = ⟨.str "abc", false, false, false⟩ ∧
    incrementBig ⟨Option.none, Option.none, 1, 0, true, true, ClampBehavior.blur, true⟩
      (.str "1.5") = ⟨.str "1.5", false, false, false⟩ :=
  ⟨(c5_non_steppable_noop.1 _ maxSafe le_rfl).1,
   (c5_non_steppable_noop.2.1 _ "abc" (by decide) (by decide)).1,
   (c5_non_steppable_noop.2.2 _ "1.5" (by decide) (by decide)).1⟩

/-- C6: with `clampBehavior = strict`, bounds `0` and `10` and no user
validator, the entry gate rejects the candidate text `"15"` (float value 15),
so the stored value is unchanged by the keystroke. -/
theorem c6_strict_gate_rejection :
    (∀ (v : InternalValue) (allowLZ : Bool),
      strictKeystrokeNumber true ClampBehavior.strict allowLZ (some 0) (some 10) v
        ⟨"15", some 15⟩ = v) ∧
    numberInputIsAllowed true ClampBehavior.strict false (some 0) (some 10)
      Option.none Option.none ⟨"15", some 15⟩ = false := by
  have hgate : numberInputIsAllowed true ClampBehavior.strict false (some 0) (some 10)
      Option.none Option.none ⟨"15", some 15⟩ = false := by decide
  refine ⟨?_, hgate⟩
  intro v allowLZ
  unfold strictKeystrokeNumber
  rw [hgate]
  rfl

/-- C9: in big-integer mode with stored value `12345678901234567890` and
`step = 10`, one `increment` call stores exactly `12345678901234567900`, both
with no upper bound and with any `max` at least the result. -/
theorem c9_bigint_increment_exactness :
    (incrementBig ⟨some 0, Option.none, 10, 0, true, true, ClampBehavior.blur, true⟩
        (.big 12345678901234567890) = ⟨.big 12345678901234567900, true, false, false⟩) ∧
    (∀ M : ℤ, 12345678901234567900 ≤ M →
      incrementBig ⟨some 0, some M, 10, 0, true, true, ClampBehavior.blur, true⟩
        (.big 12345678901234567890) = ⟨.big 12345678901234567900, true, false, false⟩) := by
  constructor
  · decide
  · intro M hM
    unfold incrementBig
    have hnot : ¬(M < 12345678901234567900) := by omega
    simp [canStepBigInt, bigStepClampMax, hnot]

/-- Witness for C9 with `max` exactly at the result. -/
theorem c9_witness :
    incrementBig ⟨some 0, some 12345678901234567900, 10, 0, true, true, ClampBehavior.blur, true⟩
      (.big 12345678901234567890) = ⟨.big 12345678901234567900, true, false, false⟩ :=
  c9_bigint_increment_exactness.2 12345678901234567900 le_rfl

theorem den_one_int_mul_pow (z : ℤ) (p : ℕ) : (((z : ℚ)) * 10 ^ p).den = 1 := by
  have h : ((z : ℚ)) * 10 ^ p = ((z * 10 ^ p : ℤ) : ℚ) := by push_cast; ring
  rw [h]; exact Rat.den_intCast _

theorem div_pow_den_one (z : ℤ) (p : ℕ) : (((z : ℚ) / 10 ^ p) * 10 ^ p).den = 1 := by
  have h10 : (10 : ℚ) ^ p ≠ 0 := by positivity
  rw [div_mul_cancel₀ _ h10]
  exact Rat.den_intCast z

theorem neg_maxSafe_intCast : (-maxSafe : ℚ) = ((-9007199254740991 : ℤ) : ℚ) := by
  norm_num [maxSafe]

theorem decimalQ_of_den_one {q : ℚ} (h : q.den = 1) : DecimalQ q :=
  ⟨0, by norm_num, by rw [pow_zero, mul_one]; exact h⟩

theorem incrementNum_num_exact_some (cfg : NumberCfg) (v m : ℚ) (hmax : cfg.max = some m)
    (hv : v < maxSafe) (hdv : DecimalQ v) (hds : DecimalQ cfg.step) :
    incrementNum cfg (.num v) =
      if m < v + cfg.step
      then ⟨.num (toFixedParse m (Nat.max (getDecimalPlacesQ v) (getDecimalPlacesQ cfg.step))),
            true, false, true⟩
      else ⟨.num (v + cfg.step), true, false, false⟩ := by
  rw [incrementNum_num_exact cfg v hv hdv hds, hmax]

/-- C2: in fixed-precision mode, for a value at least one `step` inside both
bounds, one `increment` followed by one `decrement` restores exactly the
original value — the scaled-integer fixed-point arithmetic is drift-free over
the round trip. -/
theorem c2_step_reversibility (cfg : NumberCfg) (v mn mx : ℚ)
    (hmin : cfg.min = some mn) (hmax : cfg.max = some mx) (hstep : 0 < cfg.step)
    (hdv : DecimalQ v) (hds : DecimalQ cfg.step)
    (hlo : mn + cfg.step ≤ v) (hhi : v ≤ mx - cfg.step) (hsafe : v + cfg.step < maxSafe) :
    incrementNum cfg (.num v) = ⟨.num (v + cfg.step), true, false, false⟩ ∧
    decrementNum cfg (.num (v + cfg.step)) = ⟨.num v, true, false, false⟩ := by
  have hv : v < maxSafe := lt_trans (lt_add_of_pos_right v hstep) hsafe
  have hsum : DecimalQ (v + cfg.step) := decimalQ_add hdv hds
  constructor
  · have hnotlt : ¬mx < v + cfg.step := not_lt.mpr (by linarith)
    rw [incrementNum_num_exact_some cfg v mx hmax hv hdv hds, if_neg hnotlt]
  · rw [decrementNum_num_exact cfg (v + cfg.step) hsafe hsum hds]
    have heff : effectiveMinNumber cfg = mn := by simp [effectiveMinNumber, hmin]
    rw [heff, if_neg (not_lt.mpr (by linarith))]
    have hvv : v + cfg.step - cfg.step = v := by ring
    rw [hvv]

/-- Witness for C2 at `v = 5`, bounds `0` and `10`, `step = 1`. -/
theorem c2_witness :
    incrementNum ⟨some 0, some 10, 1, 0, true, true, ClampBehavior.blur, true⟩ (.num 5) =
      ⟨.num (5 + 1), true, false, false⟩ ∧
    decrementNum ⟨some 0, some 10, 1, 0, true, true, ClampBehavior.blur, true⟩ (.num (5 + 1)) =
      ⟨.num 5, true, false, false⟩ :=
  c2_step_reversibility ⟨some 0, some 10, 1, 0, true, true, ClampBehavior.blur, true⟩ 5 0 10
    rfl rfl (show (0 : ℚ) < 1 by norm_num)
    (decimalQ_of_den_one (by decide)) (decimalQ_of_den_one (by decide))
    (show (0 : ℚ) + 1 ≤ 5 by norm_num) (show (5 : ℚ) ≤ 10 - 1 by norm_num)
    (show (5 : ℚ) + 1 < maxSafe by norm_num [maxSafe])

/-- C3: incrementing a steppable value already equal to `max` (positive step)
fires `onMaxReached` exactly once and stores `max`; decrementing a value equal
to the effective minimum fires `onMinReached` exactly once and stores that
minimum — in both fixed-precision and big-integer modes. -/
theorem c3_boundary_notification :
    (∀ (cfg : NumberCfg) (m : ℚ), cfg.max = some m → 0 < cfg.step → m < maxSafe →
      DecimalQ m → DecimalQ cfg.step →
      incrementNum cfg (.num m) = ⟨.num m, true, false, true⟩) ∧
    (∀ (cfg : NumberCfg), 0 < cfg.step → effectiveMinNumber cfg < maxSafe →
      DecimalQ (effectiveMinNumber cfg) → DecimalQ cfg.step →
      decrementNum cfg (.num (effectiveMinNumber cfg)) =
        ⟨.num (effectiveMinNumber cfg), true, true, false⟩) ∧
    (∀ (cfg : BigIntCfg) (m : ℤ), cfg.max = some m → 0 < cfg.step →
      incrementBig cfg (.big m) = ⟨.big m, true, false, true⟩) ∧
    (∀ (cfg : BigIntCfg) (mn : ℤ), effectiveMinBig cfg = some mn → 0 < cfg.step →
      decrementBig cfg (.big mn) = ⟨.big mn, true, true, false⟩) := by
  refine ⟨?_, ?_, ?_, ?_⟩
  · intro cfg m hmax hstep hm hdm hds
    have hden : (m * 10 ^ Nat.max (getDecimalPlacesQ m) (getDecimalPlacesQ cfg.step)).den = 1 :=
      den_one_pow_mono (getDecimalPlacesQ_den hdm) (Nat.le_max_left _ _)
    rw [incrementNum_num_exact_some cfg m m hmax hm hdm hds,
      if_pos (lt_add_of_pos_right m hstep), toFixedParse_eq hden]
  · intro cfg hstep hm hdm hds
    rw [decrementNum_num_exact cfg (effectiveMinNumber cfg) hm hdm hds,
      if_pos (sub_lt_self _ hstep)]
    have hden : (effectiveMinNumber cfg *
        10 ^ Nat.max (getDecimalPlacesQ (effectiveMinNumber cfg)) (getDecimalPlacesQ cfg.step)).den = 1 :=
      den_one_pow_mono (getDecimalPlacesQ_den hdm) (Nat.le_max_left _ _)
    rw [toFixedParse_eq hden]
  · intro cfg m hmax hstep
    unfold incrementBig
    have hlt : m < m + cfg.step := lt_add_of_pos_right m hstep
    simp [canStepBigInt, bigStepClampMax, hmax, hlt]
  · intro cfg mn hmin hstep
    unfold decrementBig
    have hlt : mn - cfg.step < mn := sub_lt_self _ hstep
    simp [canStepBigInt, bigStepClampMin, hmin, hlt]

/-- Witness for C3 at concrete boundary values in both modes. -/
theorem c3_witness :
    incrementNum ⟨some 0, some 10, 1, 0, true, true, ClampBehavior.blur, true⟩ (.num 10) =
      ⟨.num 10, true, false, true⟩ ∧
    decrementNum ⟨some 0, some 10, 1, 0, true, true, ClampBehavior.blur, true⟩
      (.num (effectiveMinNumber ⟨some 0, some 10, 1, 0, true, true, ClampBehavior.blur, true⟩)) =
      ⟨.num (effectiveMinNumber ⟨some 0, some 10, 1, 0, true, true, ClampBehavior.blur, true⟩),
        true, true, false⟩ ∧
    incrementBig ⟨some 0, some 100, 7, 0, true, true, ClampBehavior.blur, true⟩ (.big 100) =
      ⟨.big 100, true, false, true⟩ ∧
    decrementBig ⟨some 0, some 100, 7, 0, true, true, ClampBehavior.blur, true⟩ (.big 0) =
      ⟨.big 0, true, true, false⟩ :=
  ⟨c3_boundary_notification.1 _ 10 rfl (show (0 : ℚ) < 1 by norm_num)
      (show (10 : ℚ) < maxSafe by norm_num [maxSafe])
      (decimalQ_of_den_one (by decide)) (decimalQ_of_den_one (by decide)),
   c3_boundary_notification.2.1 _ (show (0 : ℚ) < 1 by norm_num)
      (show (0 : ℚ) < maxSafe by norm_num [maxSafe])
      (decimalQ_of_den_one (by decide)) (decimalQ_of_den_one (by decide)),
   c3_boundary_notification.2.2.1 _ 100 rfl (show (0 : ℤ) < 7 by norm_num),
   c3_boundary_notification.2.2.2 _ 0 rfl (show (0 : ℤ) < 7 by norm_num)⟩

/-- C7: with `clampBehavior = blur`, the blur normalizer replaces a resolved
number with its clamp into the configured range; with both bounds present and
ordered, the stored value afterwards lies inside them. -/
theorem c7_blur_clamp (cfg : NumberCfg) (q a b : ℚ)
    (hcb : cfg.clampBehavior = ClampBehavior.blur)
    (hmin : cfg.min = some a) (hmax : cfg.max = some b) (hab : a ≤ b) :
    (handleBlurNumber cfg (.num q)).1 = .num (clamp q cfg.min cfg.max) ∧
    a ≤ clamp q cfg.min cfg.max ∧ clamp q cfg.min cfg.max ≤ b := by
  refine ⟨?_, ?_, ?_⟩
  · unfold handleBlurNumber
    simp [hcb]
  · rw [hmin, hmax]
    unfold clamp
    exact le_min (le_max_right q a) hab
  · rw [hmin, hmax]
    unfold clamp
    exact min_le_right _ b

/-- Witness for C7: typed value 150 with bounds 0 and 100 is stored as 100. -/
theorem c7_witness :
    (handleBlurNumber ⟨some 0, some 100, 1, 0, true, true, ClampBehavior.blur, true⟩
      (.num 150)).1 = .num (clamp 150 (some 0) (some 100)) ∧
    clamp 150 (some 0) (some 100) = 100 :=
  ⟨(c7_blur_clamp ⟨some 0, some 100, 1, 0, true, true, ClampBehavior.blur, true⟩
      150 0 100 rfl rfl rfl (by norm_num)).1, by unfold clamp; norm_num⟩

/-- C8: with the default configuration (no bounds, `trimLeadingZeroesOnBlur`
set), blurring the raw text `"00100"` strips the leading zeros, re-parses, and
stores the number `100` (a change notification fires). -/
theorem c8_leading_zero_trim_blur :
    handleBlurNumber ⟨Option.none, Option.none, 1, 0, true, true, ClampBehavior.blur, true⟩
      (.str "00100") = (.num 100, true) := by
  have hstrip : stripLeadingZeros "00100" = "100" := by decide
  have htds : trailingDecimalSeparatorPattern "00100" = false := by decide
  have hdp : getDecimalPlacesStr "00100" < 15 := by decide
  have hpf : parseFloat "100" = some 100 := by
    have h : parseFloat "100" = some (1 * ((100 : ℕ) : ℚ) * (10 : ℚ) ^ (0 : ℤ)) := rfl
    rw [h]
    norm_num
  have hcsi : clampAndSanitizeInput "00100" Option.none Option.none = .num 100 := by
    simp only [clampAndSanitizeInput, hstrip, hpf, htds]
    rw [if_neg (show ¬maxSafe < (100 : ℚ) by norm_num [maxSafe])]
    simp [clamp]
  simp only [handleBlurNumber, hdp, hcsi]
  simp

/-- C10: in fixed-precision mode with no `min` and negatives allowed, the
effective decrement floor is `Number.MIN_SAFE_INTEGER`: a steppable numeric
value whose unclamped decrement falls below it stores exactly that floor and
fires `onMinReached`; and for every steppable numeric value the stored result
of `decrement` is never below the floor. -/
theorem c10_decrement_floor (cfg : NumberCfg) (q : ℚ) (hmin : cfg.min = Option.none)
    (hneg : cfg.allowNegative = true) (hq : q < maxSafe) :
    (DecimalQ q → DecimalQ cfg.step → q - cfg.step < -maxSafe →
      decrementNum cfg (.num q) = ⟨.num (-maxSafe), true, true, false⟩) ∧
    (∃ r : ℚ, (decrementNum cfg (.num q)).value = .num r ∧ -maxSafe ≤ r) := by
  have heff : effectiveMinNumber cfg = -maxSafe := by
    simp [effectiveMinNumber, hmin, hneg]
  have hfloor : ∀ p : ℕ, toFixedParse (-maxSafe) p = -maxSafe := by
    intro p
    exact toFixedParse_eq (by rw [neg_maxSafe_intCast]; exact den_one_int_mul_pow _ p)
  constructor
  · intro hdq hds hlow
    rw [decrementNum_num_exact cfg q hq hdq hds, heff, if_pos hlow, hfloor]
  · have hcs : canStep (.num q) = true := by simp [canStep, hq]
    unfold decrementNum
    rw [hcs]
    simp only [Bool.not_true, isNumberString, isNumValue, Bool.not_false,
      Bool.true_and, Bool.and_false, Bool.false_and, toNumberValue, getDecimalPlaces,
      Bool.false_eq_true, if_false, heff]
    by_cases hlt : ((jsRound (q * 10 ^ Nat.max (getDecimalPlacesQ q) (getDecimalPlacesQ cfg.step)) -
        jsRound (cfg.step * 10 ^ Nat.max (getDecimalPlacesQ q) (getDecimalPlacesQ cfg.step)) : ℤ) : ℚ) /
        10 ^ Nat.max (getDecimalPlacesQ q) (getDecimalPlacesQ cfg.step) < -maxSafe
    · rw [if_pos hlt]
      exact ⟨-maxSafe, by rw [hfloor], le_refl _⟩
    · rw [if_neg hlt]
      refine ⟨_, rfl, ?_⟩
      rw [toFixedParse_eq (div_pow_den_one _ _)] at *
      exact not_lt.mp hlt

/-- Witness for C10 at a concrete value whose decrement falls below the floor. -/
theorem c10_witness :
    decrementNum ⟨Option.none, Option.none, 3, 0, true, true, ClampBehavior.blur, true⟩
      (.num (-9007199254740990)) = ⟨.num (-maxSafe), true, true, false⟩ :=
  (c10_decrement_floor ⟨Option.none, Option.none, 3, 0, true, true, ClampBehavior.blur, true⟩
      (-9007199254740990) rfl rfl (show (-9007199254740990 : ℚ) < maxSafe by norm_num [maxSafe])).1
    (decimalQ_of_den_one (by decide)) (decimalQ_of_den_one (by decide))
    (show (-9007199254740990 : ℚ) - 3 < -maxSafe by norm_num [maxSafe])

end Mantine
